import Mathlib

/-!
Verification of the `cosmostrix` frame buffer, configuration clamping,
range parsing and palette construction.

Source files embedded here:
* `src/frame.rs` — the `Frame` change-tracking buffer (`Frame.new`,
  `clear_with_bg`, `is_dirty_all`, `dirty_indices`, `clear_dirty`,
  `index`, `get`, `set`).
* `src/main.rs` — `clamp_f32` and the speed-clamping call site.
* `src/config.rs` — `U16Range::from_str`.
* `src/palette.rs` — `build_palette`.

Modelling conventions: Rust `u16`/`usize` values are embedded as `Nat`
(the arithmetic in the source — `y as usize * width as usize + x`,
`width as usize * height as usize` — is performed in `usize` after
widening and cannot overflow for `u16` operands, so the embedding is
exact); `Vec<T>` is `List T`; fallible parsing returns `Except`/`Option`.
-/

/-- The subset of `crossterm::style::Color` (external crate) used by the
program: the sixteen named ANSI colors plus `Rgb` and `AnsiValue`. -/
inductive Color where
  | black
  | darkGrey
  | red
  | darkRed
  | green
  | darkGreen
  | yellow
  | darkYellow
  | blue
  | darkBlue
  | magenta
  | darkMagenta
  | cyan
  | darkCyan
  | white
  | grey
  | rgb (r g b : Nat)
  | ansiValue (n : Nat)
deriving DecidableEq, Repr

/-- Modelled from the spec: `cell.rs` is not under `src/`.  §3 of the spec:
"Cell — the atomic display unit: a glyph (single printable character, or
blank), a foreground color (from the active palette, or none), a bold flag,
and a background override ... Cells are compared by value; two cells are
equal iff all fields match."  The frame buffer depends on `Cell` only
through this value equality and the `blank_with_bg` constructor. -/
structure Cell where
  glyph : Option Char
  fg : Option Color
  bold : Bool
  bg : Option Color
deriving DecidableEq, Repr

/-- Modelled from the spec: the blank cell carrying a background override,
used by `Frame::new` / `Frame::clear_with_bg` (`Cell::blank_with_bg`). -/
def Cell.blank_with_bg (bg : Option Color) : Cell :=
  { glyph := none, fg := none, bold := false, bg := bg }

/-- `Frame` from `src/frame.rs`: the grid of cells plus the dirty-tracking
side tables (`dirty_all` full-redraw flag, `dirty_map` per-index marks,
`dirty` incremental index list). -/
structure Frame where
  width : Nat
  height : Nat
  cells : List Cell
  dirty_all : Bool
  dirty_map : List Bool
  dirty : List Nat
deriving DecidableEq, Repr

/-- `Frame::new` (frame.rs:16–26). -/
def Frame.new (width height : Nat) (bg : Option Color) : Frame :=
  let len := width * height
  { width := width
    height := height
    cells := List.replicate len (Cell.blank_with_bg bg)
    dirty_all := true
    dirty_map := List.replicate len false
    dirty := [] }

/-- `Frame::clear_with_bg` (frame.rs:28–34): overwrite every cell in place,
set the full-redraw flag, empty the incremental list. -/
def Frame.clear_with_bg (f : Frame) (bg : Option Color) : Frame :=
  { f with
    cells := f.cells.map (fun _ => Cell.blank_with_bg bg)
    dirty_all := true
    dirty := [] }

/-- `Frame::is_dirty_all` (frame.rs:36–38). -/
def Frame.is_dirty_all (f : Frame) : Bool :=
  f.dirty_all

/-- `Frame::dirty_indices` (frame.rs:40–42). -/
def Frame.dirty_indices (f : Frame) : List Nat :=
  f.dirty

/-- The loop body of `Frame::clear_dirty`'s second branch: clear the mark at
one index.  `List.set` is the identity when the index is out of range, which
matches `dirty_map.get_mut(i)` returning `None` and the entry being skipped. -/
def clearMark (m : List Bool) (i : Nat) : List Bool :=
  m.set i false

/-- `Frame::clear_dirty` (frame.rs:44–58). -/
def Frame.clear_dirty (f : Frame) : Frame :=
  if f.dirty_all then
    { f with
      dirty_all := false
      dirty_map := f.dirty_map.map (fun _ => false)
      dirty := [] }
  else
    { f with
      dirty_map := f.dirty.foldl clearMark f.dirty_map
      dirty := [] }

/-- `Frame::index` (frame.rs:60–65). -/
def Frame.index (f : Frame) (x y : Nat) : Option Nat :=
  if f.width ≤ x ∨ f.height ≤ y then
    none
  else
    some (y * f.width + x)

/-- `Frame::get` (frame.rs:67–69).  The source reads `&self.cells[i]`; in
every frame the program builds, `cells.len() = width * height` and an
in-bounds index is `< width * height`, so the checked lookup `cells[i]?`
returns the same value. -/
def Frame.get (f : Frame) (x y : Nat) : Option Cell :=
  (f.index x y).bind fun i => f.cells[i]?

/-- `Frame::set` (frame.rs:71–83).  `List.set` is the identity out of range,
mirroring that `self.cells[i] = cell` is only reached with `i` in range in
the frames the program builds (`cells.len() = width * height`). -/
def Frame.set (f : Frame) (x y : Nat) (cell : Cell) : Frame :=
  match f.index x y with
  | none => f
  | some i =>
    if f.cells[i]? = some cell then
      f
    else
      let cells := f.cells.set i cell
      if f.dirty_all = false ∧ f.dirty_map[i]? = some false then
        { f with
          cells := cells
          dirty_map := f.dirty_map.set i true
          dirty := f.dirty ++ [i] }
      else
        { f with cells := cells }

/-- A sequence of `set` calls, applied left to right. -/
def Frame.setList (f : Frame) (ops : List (Nat × Nat × Cell)) : Frame :=
  ops.foldl (fun g op => g.set op.1 op.2.1 op.2.2) f

example : (Frame.new 2 2 none).cells.length = 4 := by decide

/-! ### Basic lemmas about `Frame.index` and `Frame.set` -/

theorem Frame.index_eq_some {f : Frame} {x y i : Nat} :
    f.index x y = some i ↔ x < f.width ∧ y < f.height ∧ i = y * f.width + x := by
  unfold Frame.index
  split
  · rename_i h
    constructor
    · intro hc
      exact absurd hc (by simp)
    · intro ⟨hx, hy, _⟩
      rcases h with h | h
      · exact absurd hx (by omega)
      · exact absurd hy (by omega)
  · rename_i h
    push_neg at h
    constructor
    · intro hc
      exact ⟨h.1, h.2, (Option.some_inj.mp hc).symm⟩
    · intro ⟨_, _, hi⟩
      simp [hi]

theorem Frame.index_lt {f : Frame} {x y i : Nat} (h : f.index x y = some i) :
    i < f.width * f.height := by
  rcases Frame.index_eq_some.mp h with ⟨hx, hy, hi⟩
  subst hi
  calc y * f.width + x < y * f.width + f.width := by omega
    _ = (y + 1) * f.width := by ring
    _ ≤ f.height * f.width := Nat.mul_le_mul_right _ (by omega)
    _ = f.width * f.height := Nat.mul_comm _ _

theorem Frame.index_inj {f : Frame} {x y x' y' i : Nat}
    (h : f.index x y = some i) (h' : f.index x' y' = some i) :
    x = x' ∧ y = y' := by
  rcases Frame.index_eq_some.mp h with ⟨hx, _, hi⟩
  rcases Frame.index_eq_some.mp h' with ⟨hx', _, hi'⟩
  have hw : 0 < f.width := by omega
  have h1 : (f.width * y + x) = (f.width * y' + x') := by
    rw [Nat.mul_comm] at hi hi'
    omega
  have hx2 : x = x' := by
    have := congrArg (· % f.width) h1
    simpa [Nat.mul_add_mod, Nat.mod_eq_of_lt hx, Nat.mod_eq_of_lt hx'] using this
  have hy2 : y = y' := by
    have := congrArg (· / f.width) h1
    simpa [Nat.mul_add_div hw, Nat.div_eq_of_lt hx, Nat.div_eq_of_lt hx'] using this
  exact ⟨hx2, hy2⟩

theorem Frame.set_of_index_none {f : Frame} {x y : Nat} {c : Cell}
    (h : f.index x y = none) : f.set x y c = f := by
  unfold Frame.set
  rw [h]

theorem Frame.set_of_cell_eq {f : Frame} {x y i : Nat} {c : Cell}
    (h : f.index x y = some i) (hc : f.cells[i]? = some c) : f.set x y c = f := by
  unfold Frame.set
  rw [h]
  simp [hc]

theorem Frame.set_push {f : Frame} {x y i : Nat} {c : Cell}
    (h : f.index x y = some i) (hc : f.cells[i]? ≠ some c)
    (hall : f.dirty_all = false) (hm : f.dirty_map[i]? = some false) :
    f.set x y c =
      { f with
        cells := f.cells.set i c
        dirty_map := f.dirty_map.set i true
        dirty := f.dirty ++ [i] } := by
  unfold Frame.set
  rw [h]
  simp [hc, hall, hm]

theorem Frame.set_nopush {f : Frame} {x y i : Nat} {c : Cell}
    (h : f.index x y = some i) (hc : f.cells[i]? ≠ some c)
    (hcond : ¬(f.dirty_all = false ∧ f.dirty_map[i]? = some false)) :
    f.set x y c = { f with cells := f.cells.set i c } := by
  unfold Frame.set
  rw [h]
  dsimp only
  rw [if_neg hc, if_neg hcond]

/-- The cell grids aside, `set` can only change `cells`, `dirty_map` and
`dirty`; the dimensions and the full-redraw flag are never touched. -/
theorem Frame.set_preserves {f : Frame} {x y : Nat} {c : Cell} :
    (f.set x y c).width = f.width ∧ (f.set x y c).height = f.height ∧
    (f.set x y c).dirty_all = f.dirty_all ∧
    (f.set x y c).cells.length = f.cells.length ∧
    (f.set x y c).dirty_map.length = f.dirty_map.length := by
  unfold Frame.set
  cases h : f.index x y with
  | none => simp
  | some i =>
    by_cases hc : f.cells[i]? = some c
    · simp [hc]
    · by_cases hcond : f.dirty_all = false ∧ f.dirty_map[i]? = some false
      · simp [hc, hcond]
      · simp only [if_neg hc]
        rw [if_neg hcond]
        simp

/-- Helper shared by several claims: a `set` whose value equals the current
cell is a complete no-op (frame.rs:73–75). -/
theorem Frame.set_eq_self_of_get {f : Frame} {x y : Nat} {c : Cell}
    (h : f.get x y = some c) : f.set x y c = f := by
  unfold Frame.get at h
  cases hidx : f.index x y with
  | none => rw [hidx] at h; exact absurd h (by simp)
  | some i =>
    rw [hidx] at h
    exact Frame.set_of_cell_eq hidx (by simpa using h)

theorem Frame.index_set {f : Frame} {x y x' y' : Nat} {c : Cell} :
    (f.set x y c).index x' y' = f.index x' y' := by
  unfold Frame.index
  rw [Frame.set_preserves.1, Frame.set_preserves.2.1]

theorem Frame.cells_set_of_index {f : Frame} {x y i : Nat} {c : Cell}
    (h : f.index x y = some i) :
    (f.set x y c).cells = if f.cells[i]? = some c then f.cells else f.cells.set i c := by
  by_cases hc : f.cells[i]? = some c
  · rw [Frame.set_of_cell_eq h hc, if_pos hc]
  · rw [if_neg hc]
    by_cases hcond : f.dirty_all = false ∧ f.dirty_map[i]? = some false
    · rw [Frame.set_push h hc hcond.1 hcond.2]
    · rw [Frame.set_nopush h hc hcond]

/-- Helper: in a well-formed frame, reading back an in-bounds coordinate
right after `set` yields the written cell. -/
theorem Frame.get_set_self {f : Frame} {x y : Nat} {c : Cell}
    (hlen : f.cells.length = f.width * f.height)
    (hx : x < f.width) (hy : y < f.height) :
    (f.set x y c).get x y = some c := by
  have hidx : f.index x y = some (y * f.width + x) :=
    Frame.index_eq_some.mpr ⟨hx, hy, rfl⟩
  have hlt : y * f.width + x < f.cells.length := by
    rw [hlen]; exact Frame.index_lt hidx
  have hidx2 : (f.set x y c).index x y = f.index x y := Frame.index_set
  unfold Frame.get
  rw [hidx2, hidx]
  simp only [Option.some_bind]
  rw [Frame.cells_set_of_index hidx]
  by_cases hc : f.cells[y * f.width + x]? = some c
  · rw [if_pos hc]; exact hc
  · rw [if_neg hc]; exact List.getElem?_set_self hlt

/-- C2: for an in-bounds coordinate whose cell already equals `c`, `set` is a
complete no-op (all fields of the frame are unchanged); in particular the
second of two immediately repeated identical `set` calls changes nothing. -/
theorem frame_set_same_value_noop (f : Frame) (x y : Nat) (c : Cell) :
    (f.get x y = some c → f.set x y c = f) ∧
    (f.cells.length = f.width * f.height → x < f.width → y < f.height →
      (f.set x y c).set x y c = f.set x y c) := by
  refine ⟨Frame.set_eq_self_of_get, fun hlen hx hy => ?_⟩
  exact Frame.set_eq_self_of_get (Frame.get_set_self hlen hx hy)

/-- A sample non-blank cell used by the concrete witnesses. -/
def sampleCell : Cell :=
  { glyph := some 'X', fg := some Color.green, bold := false, bg := none }

theorem frame_set_same_value_noop_witness :
    ((Frame.new 2 2 none).get 0 0 = some (Cell.blank_with_bg none) →
      (Frame.new 2 2 none).set 0 0 (Cell.blank_with_bg none) = Frame.new 2 2 none) ∧
    ((Frame.new 2 2 none).cells.length = (Frame.new 2 2 none).width * (Frame.new 2 2 none).height →
      0 < (Frame.new 2 2 none).width → 0 < (Frame.new 2 2 none).height →
      ((Frame.new 2 2 none).set 0 0 (Cell.blank_with_bg none)).set 0 0 (Cell.blank_with_bg none) =
        (Frame.new 2 2 none).set 0 0 (Cell.blank_with_bg none)) :=
  frame_set_same_value_noop (Frame.new 2 2 none) 0 0 (Cell.blank_with_bg none)

/-- C4: an out-of-bounds coordinate makes `get` return `none` and `set` a
silent no-op that leaves the whole frame unchanged. -/
theorem frame_out_of_bounds_noop (f : Frame) (x y : Nat) (c : Cell)
    (h : f.width ≤ x ∨ f.height ≤ y) :
    f.get x y = none ∧ f.set x y c = f := by
  have hidx : f.index x y = none := by
    unfold Frame.index
    exact if_pos h
  exact ⟨by unfold Frame.get; rw [hidx]; rfl, Frame.set_of_index_none hidx⟩

theorem frame_out_of_bounds_noop_witness :
    ((Frame.new 2 2 none).width ≤ 5 ∨ (Frame.new 2 2 none).height ≤ 0) ∧
    ((Frame.new 2 2 none).get 5 0 = none ∧
      (Frame.new 2 2 none).set 5 0 sampleCell = Frame.new 2 2 none) :=
  ⟨Or.inl (by decide),
    frame_out_of_bounds_noop (Frame.new 2 2 none) 5 0 sampleCell (Or.inl (by decide))⟩

/-- C7: while the full-redraw flag is set, a `set` with a genuinely new value
still overwrites the addressed cell, leaves every other cell alone, and skips
the incremental dirty tracking entirely. -/
theorem frame_set_skips_tracking_during_full_redraw (f : Frame) (x y : Nat)
    (c c₀ : Cell) (hall : f.is_dirty_all = true)
    (hget : f.get x y = some c₀) (hne : c₀ ≠ c) :
    ∃ i, f.index x y = some i ∧
      (f.set x y c).cells[i]? = some c ∧
      (∀ j, j ≠ i → (f.set x y c).cells[j]? = f.cells[j]?) ∧
      (f.set x y c).dirty_indices = f.dirty_indices ∧
      (f.set x y c).dirty_map = f.dirty_map ∧
      (f.set x y c).is_dirty_all = true := by
  unfold Frame.get at hget
  cases hidx : f.index x y with
  | none => rw [hidx] at hget; exact absurd hget (by simp)
  | some i =>
    rw [hidx] at hget
    simp only [Option.some_bind] at hget
    have hc : f.cells[i]? ≠ some c := by
      rw [hget]
      intro hcc
      exact hne (Option.some_inj.mp hcc)
    have hcond : ¬(f.dirty_all = false ∧ f.dirty_map[i]? = some false) := by
      intro hco
      rw [Frame.is_dirty_all] at hall
      rw [hall] at hco
      exact absurd hco.1 (by simp)
    have hlt : i < f.cells.length := by
      rcases List.getElem?_eq_some.mp hget with ⟨hh, _⟩
      exact hh
    rw [Frame.set_nopush hidx hc hcond]
    refine ⟨i, rfl, List.getElem?_set_self hlt, fun j hj => ?_, rfl, rfl, hall⟩
    exact List.getElem?_set_ne (fun hij => hj hij.symm)

theorem frame_set_skips_tracking_during_full_redraw_witness :
    (Frame.new 2 2 none).is_dirty_all = true ∧
    (Frame.new 2 2 none).get 1 1 = some (Cell.blank_with_bg none) ∧
    Cell.blank_with_bg none ≠ sampleCell ∧
    ∃ i, (Frame.new 2 2 none).index 1 1 = some i ∧
      ((Frame.new 2 2 none).set 1 1 sampleCell).cells[i]? = some sampleCell ∧
      (∀ j, j ≠ i →
        ((Frame.new 2 2 none).set 1 1 sampleCell).cells[j]? = (Frame.new 2 2 none).cells[j]?) ∧
      ((Frame.new 2 2 none).set 1 1 sampleCell).dirty_indices = (Frame.new 2 2 none).dirty_indices ∧
      ((Frame.new 2 2 none).set 1 1 sampleCell).dirty_map = (Frame.new 2 2 none).dirty_map ∧
      ((Frame.new 2 2 none).set 1 1 sampleCell).is_dirty_all = true :=
  ⟨by decide, by decide, by decide,
    frame_set_skips_tracking_during_full_redraw (Frame.new 2 2 none) 1 1 sampleCell
      (Cell.blank_with_bg none) (by decide) (by decide) (by decide)⟩

/-- C10: setting an in-bounds cell of a well-formed frame makes `get` on
that coordinate return the written cell, and every other coordinate reads
exactly as before. -/
theorem frame_set_get_roundtrip (f : Frame) (x y : Nat) (c : Cell)
    (hlen : f.cells.length = f.width * f.height)
    (hx : x < f.width) (hy : y < f.height) :
    (f.set x y c).get x y = some c ∧
    ∀ x' y', ¬(x' = x ∧ y' = y) → (f.set x y c).get x' y' = f.get x' y' := by
  refine ⟨Frame.get_set_self hlen hx hy, fun x' y' hne => ?_⟩
  have hidx : f.index x y = some (y * f.width + x) :=
    Frame.index_eq_some.mpr ⟨hx, hy, rfl⟩
  unfold Frame.get
  rw [Frame.index_set]
  cases hidx' : f.index x' y' with
  | none => rfl
  | some j =>
    simp only [Option.some_bind]
    rw [Frame.cells_set_of_index hidx]
    by_cases hc : f.cells[y * f.width + x]? = some c
    · rw [if_pos hc]
    · rw [if_neg hc]
      have hji : j ≠ y * f.width + x := by
        intro hji
        rw [hji] at hidx'
        exact hne ⟨(Frame.index_inj hidx' hidx).1, (Frame.index_inj hidx' hidx).2⟩
      exact List.getElem?_set_ne (fun hij => hji hij.symm)

theorem frame_set_get_roundtrip_witness :
    (Frame.new 2 2 none).cells.length = (Frame.new 2 2 none).width * (Frame.new 2 2 none).height ∧
    0 < (Frame.new 2 2 none).width ∧ 0 < (Frame.new 2 2 none).height ∧
    (((Frame.new 2 2 none).set 0 0 sampleCell).get 0 0 = some sampleCell ∧
      ∀ x' y', ¬(x' = 0 ∧ y' = 0) →
        ((Frame.new 2 2 none).set 0 0 sampleCell).get x' y' = (Frame.new 2 2 none).get x' y') :=
  ⟨by decide, by decide, by decide,
    frame_set_get_roundtrip (Frame.new 2 2 none) 0 0 sampleCell (by decide) (by decide) (by decide)⟩

/-- C3: `Frame::new` allocates `width * height` blank cells with the given
background and sets the full-redraw flag with an empty incremental list;
`clear_with_bg` resets every cell to blank-with-bg, sets the full-redraw
flag and empties the incremental list; `set` never touches the full-redraw
flag (so it stays up until `clear_dirty`), and `clear_dirty` on a frame
whose flag is up lowers it and leaves the incremental list empty. -/
theorem frame_new_clear_full_redraw (w h : Nat) (bg : Option Color) (f : Frame)
    (bg' : Option Color) (x y : Nat) (c : Cell) :
    (Frame.new w h bg).cells = List.replicate (w * h) (Cell.blank_with_bg bg) ∧
    (Frame.new w h bg).is_dirty_all = true ∧
    (Frame.new w h bg).dirty_indices = [] ∧
    (f.clear_with_bg bg').cells.length = f.cells.length ∧
    (∀ i, i < f.cells.length →
      (f.clear_with_bg bg').cells[i]? = some (Cell.blank_with_bg bg')) ∧
    (f.clear_with_bg bg').is_dirty_all = true ∧
    (f.clear_with_bg bg').dirty_indices = [] ∧
    (f.set x y c).is_dirty_all = f.is_dirty_all ∧
    (f.is_dirty_all = true →
      (f.clear_dirty).is_dirty_all = false ∧ (f.clear_dirty).dirty_indices = []) := by
  refine ⟨rfl, rfl, rfl, by simp [Frame.clear_with_bg], ?_, rfl, rfl, ?_, ?_⟩
  · intro i hi
    unfold Frame.clear_with_bg
    simp only [List.getElem?_map]
    rw [List.getElem?_eq_getElem hi]
    rfl
  · show (f.set x y c).dirty_all = f.dirty_all
    exact Frame.set_preserves.2.2.1
  · intro hall
    unfold Frame.is_dirty_all at hall
    unfold Frame.clear_dirty
    rw [if_pos hall]
    exact ⟨rfl, rfl⟩

theorem frame_new_clear_full_redraw_witness :
    (Frame.new 2 2 none).cells = List.replicate (2 * 2) (Cell.blank_with_bg none) ∧
    (Frame.new 2 2 none).is_dirty_all = true ∧
    (Frame.new 2 2 none).dirty_indices = [] ∧
    ((Frame.new 2 2 none).clear_with_bg (some Color.black)).cells.length =
      (Frame.new 2 2 none).cells.length ∧
    (∀ i, i < (Frame.new 2 2 none).cells.length →
      ((Frame.new 2 2 none).clear_with_bg (some Color.black)).cells[i]? =
        some (Cell.blank_with_bg (some Color.black))) ∧
    ((Frame.new 2 2 none).clear_with_bg (some Color.black)).is_dirty_all = true ∧
    ((Frame.new 2 2 none).clear_with_bg (some Color.black)).dirty_indices = [] ∧
    ((Frame.new 2 2 none).set 0 0 sampleCell).is_dirty_all = (Frame.new 2 2 none).is_dirty_all ∧
    ((Frame.new 2 2 none).is_dirty_all = true →
      ((Frame.new 2 2 none).clear_dirty).is_dirty_all = false ∧
      ((Frame.new 2 2 none).clear_dirty).dirty_indices = []) :=
  frame_new_clear_full_redraw 2 2 none (Frame.new 2 2 none) (some Color.black) 0 0 sampleCell

/-! ### Dirty-tracking invariants -/

theorem foldl_clearMark_length (l : List Nat) (m : List Bool) :
    (l.foldl clearMark m).length = m.length := by
  induction l generalizing m with
  | nil => rfl
  | cons i l ih =>
    rw [List.foldl_cons, ih]
    unfold clearMark
    exact List.length_set m i false

theorem foldl_clearMark_getElem_true {l : List Nat} {m : List Bool} {j : Nat}
    (h : (l.foldl clearMark m)[j]? = some true) : m[j]? = some true ∧ j ∉ l := by
  induction l generalizing m with
  | nil => exact ⟨h, List.not_mem_nil j⟩
  | cons i l ih =>
    rw [List.foldl_cons] at h
    rcases ih h with ⟨h1, h2⟩
    by_cases hij : j = i
    · subst hij
      unfold clearMark at h1
      rw [List.getElem?_set] at h1
      simp at h1
    · unfold clearMark at h1
      rw [List.getElem?_set_ne (fun hh => hij hh.symm)] at h1
      refine ⟨h1, ?_⟩
      intro hmem
      rcases List.mem_cons.mp hmem with hh | hh
      · exact hij hh
      · exact h2 hh

/-- In any frame satisfying the reachable-state property "every index marked
in `dirty_map` is listed in `dirty`" (part of the tracking invariant),
`clear_dirty` yields a frame with the flag down, an empty list, no marks
left in `dirty_map`, and the grid untouched. -/
theorem Frame.clear_dirty_clean {f : Frame}
    (hmt : ∀ i, f.dirty_map[i]? = some true → i ∈ f.dirty) :
    (f.clear_dirty).dirty_all = false ∧ (f.clear_dirty).dirty = [] ∧
    (∀ j : Nat, (f.clear_dirty).dirty_map[j]? ≠ some true) ∧
    (f.clear_dirty).cells = f.cells ∧
    (f.clear_dirty).width = f.width ∧ (f.clear_dirty).height = f.height ∧
    (f.clear_dirty).dirty_map.length = f.dirty_map.length := by
  unfold Frame.clear_dirty
  by_cases hall : f.dirty_all = true
  · rw [if_pos hall]
    refine ⟨rfl, rfl, ?_, rfl, rfl, rfl, by simp⟩
    intro j h
    rw [List.getElem?_map] at h
    cases hm : f.dirty_map[j]? <;> simp [hm] at h
  · rw [if_neg hall]
    have hfalse : f.dirty_all = false := by
      revert hall
      cases f.dirty_all <;> simp
    refine ⟨hfalse, rfl, ?_, rfl, rfl, rfl, foldl_clearMark_length f.dirty f.dirty_map⟩
    intro j h
    rcases foldl_clearMark_getElem_true h with ⟨h1, h2⟩
    exact h2 (hmt j h1)

/-- The invariant maintained by a sequence of `set` calls starting from the
dirty-cleared frame `f₀`: the flag stays down, shapes are preserved, the
incremental list is duplicate-free, lists exactly the marked indices, and
covers every index whose cell differs from its original value. -/
def SetInv (f₀ g : Frame) : Prop :=
  g.width = f₀.width ∧ g.height = f₀.height ∧
  g.dirty_all = false ∧
  g.cells.length = f₀.cells.length ∧
  g.dirty_map.length = f₀.dirty_map.length ∧
  g.dirty.Nodup ∧
  (∀ i, i ∈ g.dirty ↔ g.dirty_map[i]? = some true) ∧
  (∀ i, g.cells[i]? ≠ f₀.cells[i]? → i ∈ g.dirty)

theorem SetInv.base {f₀ : Frame} (hall : f₀.dirty_all = false)
    (hdirty : f₀.dirty = []) (hmt : ∀ j : Nat, f₀.dirty_map[j]? ≠ some true) :
    SetInv f₀ f₀ := by
  refine ⟨rfl, rfl, hall, rfl, rfl, hdirty ▸ List.nodup_nil, fun i => ?_, fun i hne => absurd rfl hne⟩
  constructor
  · intro hi
    rw [hdirty] at hi
    exact absurd hi (List.not_mem_nil i)
  · intro hi
    exact absurd hi (hmt i)

theorem SetInv.step {f₀ g : Frame} {x y : Nat} {c : Cell}
    (_hwfc : f₀.cells.length = f₀.width * f₀.height)
    (hwfm : f₀.dirty_map.length = f₀.width * f₀.height)
    (h : SetInv f₀ g) : SetInv f₀ (g.set x y c) := by
  obtain ⟨hw, hh, hall, hcl, hml, hnd, hiff, hch⟩ := h
  cases hidx : g.index x y with
  | none =>
    rw [Frame.set_of_index_none hidx]
    exact ⟨hw, hh, hall, hcl, hml, hnd, hiff, hch⟩
  | some i =>
    have hilt : i < g.width * g.height := Frame.index_lt hidx
    have hiltm : i < g.dirty_map.length := by
      rw [hml, hwfm]
      rw [hw, hh] at hilt
      exact hilt
    by_cases hc : g.cells[i]? = some c
    · rw [Frame.set_of_cell_eq hidx hc]
      exact ⟨hw, hh, hall, hcl, hml, hnd, hiff, hch⟩
    · by_cases hm : g.dirty_map[i]? = some false
      · rw [Frame.set_push hidx hc hall hm]
        have hnotmem : i ∉ g.dirty := by
          intro him
          rw [(hiff i).mp him] at hm
          exact absurd (Option.some_inj.mp hm) (by simp)
        refine ⟨hw, hh, hall, ?_, ?_, ?_, ?_, ?_⟩
        · rw [List.length_set]; exact hcl
        · rw [List.length_set]; exact hml
        · rw [List.nodup_append]
          refine ⟨hnd, List.nodup_singleton i, fun a ha hb => ?_⟩
          rw [List.mem_singleton] at hb
          subst hb
          exact hnotmem ha
        · intro j
          by_cases hji : j = i
          · subst hji
            refine iff_of_true (List.mem_append.mpr (Or.inr (List.mem_singleton_self j))) ?_
            exact List.getElem?_set_self hiltm
          · rw [List.getElem?_set_ne (l := g.dirty_map) (fun hij => hji hij.symm)]
            constructor
            · intro hj
              rcases List.mem_append.mp hj with hj | hj
              · exact (hiff j).mp hj
              · exact absurd (List.mem_singleton.mp hj) hji
            · intro hj
              exact List.mem_append.mpr (Or.inl ((hiff j).mpr hj))
        · intro j hj
          by_cases hji : j = i
          · subst hji
            exact List.mem_append.mpr (Or.inr (List.mem_singleton_self j))
          · rw [List.getElem?_set_ne (l := g.cells) (fun hij => hji hij.symm)] at hj
            exact List.mem_append.mpr (Or.inl (hch j hj))
      · have hmt : g.dirty_map[i]? = some true := by
          cases hmm : g.dirty_map[i]? with
          | none =>
            rw [List.getElem?_eq_none_iff] at hmm
            omega
          | some b =>
            cases b
            · exact absurd hmm hm
            · rfl
        rw [Frame.set_nopush hidx hc (fun hco => hm hco.2)]
        refine ⟨hw, hh, hall, ?_, hml, hnd, hiff, ?_⟩
        · rw [List.length_set]; exact hcl
        · intro j hj
          by_cases hji : j = i
          · subst hji
            exact (hiff j).mpr hmt
          · rw [List.getElem?_set_ne (l := g.cells) (fun hij => hji hij.symm)] at hj
            exact hch j hj

theorem SetInv.fold {f₀ g : Frame}
    (hwfc : f₀.cells.length = f₀.width * f₀.height)
    (hwfm : f₀.dirty_map.length = f₀.width * f₀.height)
    (h : SetInv f₀ g) (ops : List (Nat × Nat × Cell)) :
    SetInv f₀ (g.setList ops) := by
  induction ops generalizing g with
  | nil => exact h
  | cons op ops ih =>
    show SetInv f₀ (Frame.setList (g.set op.1 op.2.1 op.2.2) ops)
    exact ih (SetInv.step hwfc hwfm h)

/-- C1 (amended): starting from a well-formed frame on which `clear_dirty()`
has just been called, after any sequence of `set` calls `dirty_indices()`
contains every index whose cell value differs from its value before the
sequence began, and no index more than once.  (The list may additionally
retain an index whose cell was changed and later restored to its original
value — see the counterexample to the claim as originally stated.)  The
hypothesis `hmt` is the reachable-state tracking property proved invariant
in `frame_dirty_invariants`. -/
theorem frame_dirty_completeness (f : Frame) (ops : List (Nat × Nat × Cell))
    (hwfc : f.cells.length = f.width * f.height)
    (hwfm : f.dirty_map.length = f.width * f.height)
    (hmt : ∀ i, f.dirty_map[i]? = some true → i ∈ f.dirty) :
    (f.clear_dirty.setList ops).dirty_indices.Nodup ∧
    ∀ i : Nat, (f.clear_dirty.setList ops).cells[i]? ≠ f.cells[i]? →
      i ∈ (f.clear_dirty.setList ops).dirty_indices := by
  obtain ⟨h1, h2, h3, h4, h5, h6, h7⟩ := Frame.clear_dirty_clean hmt
  have hwfc2 : f.clear_dirty.cells.length = f.clear_dirty.width * f.clear_dirty.height := by
    rw [h4, h5, h6]; exact hwfc
  have hwfm2 : f.clear_dirty.dirty_map.length = f.clear_dirty.width * f.clear_dirty.height := by
    rw [h7, h5, h6]; exact hwfm
  obtain ⟨_, _, _, _, _, hnd, _, hch⟩ :=
    SetInv.fold hwfc2 hwfm2 (SetInv.base h1 h2 h3) ops
  refine ⟨hnd, fun i hne => hch i ?_⟩
  rw [h4]
  exact hne

theorem frame_dirty_completeness_witness :
    ((Frame.new 1 1 none).clear_dirty.setList [(0, 0, sampleCell)]).dirty_indices.Nodup ∧
    ∀ i : Nat,
      ((Frame.new 1 1 none).clear_dirty.setList [(0, 0, sampleCell)]).cells[i]? ≠
        (Frame.new 1 1 none).cells[i]? →
      i ∈ ((Frame.new 1 1 none).clear_dirty.setList [(0, 0, sampleCell)]).dirty_indices :=
  frame_dirty_completeness (Frame.new 1 1 none) [(0, 0, sampleCell)] (by decide) (by decide)
    (fun i h => by cases i <;> simp [Frame.new] at h)

/-- C1, as originally stated, is false: on a freshly dirty-cleared 1×1 frame,
setting the single cell to a new value and then back to its original value
leaves index 0 in `dirty_indices()` even though the final cell value equals
the value before the sequence began (so the list is not "exactly the indices
whose cell value differs"). -/
theorem frame_dirty_completeness_counterexample :
    (0 : Nat) ∈ ((Frame.new 1 1 none).clear_dirty.setList
        [(0, 0, sampleCell), (0, 0, Cell.blank_with_bg none)]).dirty_indices ∧
    ((Frame.new 1 1 none).clear_dirty.setList
        [(0, 0, sampleCell), (0, 0, Cell.blank_with_bg none)]).cells[(0 : Nat)]? =
      ((Frame.new 1 1 none).clear_dirty).cells[(0 : Nat)]? := by
  decide

/-- The tracking invariant of a `Frame`: the incremental list is
duplicate-free and every listed index is marked in `dirty_map`. -/
def DirtyInv (f : Frame) : Prop :=
  f.dirty.Nodup ∧ ∀ i ∈ f.dirty, f.dirty_map[i]? = some true

/-- C6: the incremental dirty list never holds a duplicate (the invariant
"`dirty` is duplicate-free and every listed index is marked in `dirty_map`"
holds for a new frame and is preserved by every operation), `clear_dirty`
always leaves the list empty, and a `set` that does not change a cell value
(equal value, or out of bounds) reports no new dirty index. -/
theorem frame_dirty_invariants :
    (∀ w h : Nat, ∀ bg : Option Color, DirtyInv (Frame.new w h bg)) ∧
    (∀ f : Frame, ∀ bg : Option Color, DirtyInv (f.clear_with_bg bg)) ∧
    (∀ f : Frame, DirtyInv f.clear_dirty) ∧
    (∀ f : Frame, ∀ x y : Nat, ∀ c : Cell, DirtyInv f → DirtyInv (f.set x y c)) ∧
    (∀ f : Frame, f.clear_dirty.dirty_indices = []) ∧
    (∀ f : Frame, ∀ x y : Nat, ∀ c : Cell,
      f.get x y = some c → (f.set x y c).dirty_indices = f.dirty_indices) ∧
    (∀ f : Frame, ∀ x y : Nat, ∀ c : Cell,
      f.index x y = none → (f.set x y c).dirty_indices = f.dirty_indices) := by
  have hclear : ∀ f : Frame, f.clear_dirty.dirty = [] := by
    intro f
    unfold Frame.clear_dirty
    by_cases hall : f.dirty_all = true
    · rw [if_pos hall]
    · rw [if_neg hall]
  refine ⟨?_, ?_, ?_, ?_, hclear, ?_, ?_⟩
  · intro w h bg
    exact ⟨List.nodup_nil, fun i hi => absurd hi (List.not_mem_nil i)⟩
  · intro f bg
    exact ⟨List.nodup_nil, fun i hi => absurd hi (List.not_mem_nil i)⟩
  · intro f
    refine ⟨?_, ?_⟩
    · rw [hclear f]; exact List.nodup_nil
    · intro i hi
      rw [hclear f] at hi
      exact absurd hi (List.not_mem_nil i)
  · intro f x y c h
    obtain ⟨hnd, hmem⟩ := h
    cases hidx : f.index x y with
    | none => rw [Frame.set_of_index_none hidx]; exact ⟨hnd, hmem⟩
    | some i =>
      by_cases hc : f.cells[i]? = some c
      · rw [Frame.set_of_cell_eq hidx hc]; exact ⟨hnd, hmem⟩
      · by_cases hcond : f.dirty_all = false ∧ f.dirty_map[i]? = some false
        · rw [Frame.set_push hidx hc hcond.1 hcond.2]
          have hnotmem : i ∉ f.dirty := by
            intro him
            rw [hmem i him] at hcond
            exact absurd (Option.some_inj.mp hcond.2) (by simp)
          have hiltm : i < f.dirty_map.length := by
            rcases List.getElem?_eq_some.mp hcond.2 with ⟨hh, _⟩
            exact hh
          constructor
          · rw [List.nodup_append]
            refine ⟨hnd, List.nodup_singleton i, fun a ha hb => ?_⟩
            rw [List.mem_singleton] at hb
            subst hb
            exact hnotmem ha
          · intro j hj
            rcases List.mem_append.mp hj with hj | hj
            · have hji : j ≠ i := fun hh => hnotmem (hh ▸ hj)
              rw [List.getElem?_set_ne (l := f.dirty_map) (fun hij => hji hij.symm)]
              exact hmem j hj
            · rw [List.mem_singleton] at hj
              subst hj
              exact List.getElem?_set_self hiltm
        · rw [Frame.set_nopush hidx hc hcond]
          exact ⟨hnd, hmem⟩
  · intro f x y c hget
    rw [Frame.set_eq_self_of_get hget]
  · intro f x y c hidx
    rw [Frame.set_of_index_none hidx]

theorem frame_dirty_invariants_witness :
    DirtyInv (Frame.new 1 1 none) ∧ DirtyInv ((Frame.new 1 1 none).set 0 0 sampleCell) :=
  ⟨⟨List.nodup_nil, fun i hi => absurd hi (List.not_mem_nil i)⟩,
    frame_dirty_invariants.2.2.2.1 (Frame.new 1 1 none) 0 0 sampleCell
      ⟨List.nodup_nil, fun i hi => absurd hi (List.not_mem_nil i)⟩⟩

/-! ### Speed clamping (`src/main.rs`) -/

/-- A tagged model of Rust `f32`, sufficient for the program's clamping
logic: `clamp_f32` only classifies its argument as finite / non-finite and
compares finite values against finite literal bounds, so a finite value is
carried as the exact rational it denotes and `nan` / `inf` / `neginf` cover
the non-finite classes.  No rounding arithmetic is performed on a speed
between the command line and the engine setter. -/
inductive F32 where
  | nan
  | inf
  | neginf
  | fin (q : ℚ)
deriving DecidableEq

/-- `f32::is_finite`. -/
def F32.is_finite : F32 → Bool
  | .fin _ => true
  | _ => false

/-- `f32::clamp` as used in `main.rs`: every call passes finite literal
bounds with `min ≤ max`, and the value is already known finite (the
`is_finite` guard in `clamp_f32`), so Rust's semantics is plain ordered
clamping; the non-finite fallthrough is never reached by the program. -/
def F32.clamp : F32 → F32 → F32 → F32
  | .fin q, .fin lo, .fin hi => .fin (if q < lo then lo else if hi < q then hi else q)
  | v, _, _ => v

/-- `clamp_f32` (main.rs:69–74). -/
def clamp_f32 (v min max fallback : F32) : F32 :=
  if v.is_finite then v.clamp min max else fallback

/-- The exact rational denoted by the `f32` literal `0.001` in `main.rs`
(the nearest binary32 value to 1/1000 is `8589935 × 2⁻³³`). -/
def speedClampMin : ℚ := 8589935 / 8589934592

/-- The speed-clamping call site (main.rs:235):
`cloud.set_chars_per_sec(clamp_f32(args.speed, 0.001, 1000.0, 8.0))`. -/
def clampSpeed (v : F32) : F32 :=
  clamp_f32 v (F32.fin speedClampMin) (F32.fin 1000) (F32.fin 8)

/-- C5 counterexample: configuring chars-per-second to `0` does not keep the
previously held valid value (the default `8.0`, which is what `clamp_f32`
receives as its fallback): `0` is finite, so it is clamped up to the
minimum `0.001`, a different value. -/
theorem clamp_speed_counterexample :
    clampSpeed (F32.fin 0) = F32.fin speedClampMin ∧
    F32.fin speedClampMin ≠ F32.fin 8 := by
  constructor
  · show clamp_f32 (F32.fin 0) (F32.fin speedClampMin) (F32.fin 1000) (F32.fin 8) =
      F32.fin speedClampMin
    unfold clamp_f32 F32.is_finite F32.clamp
    norm_num [speedClampMin]
  · intro h
    have h2 : speedClampMin = 8 := by injection h
    norm_num [speedClampMin] at h2

/-- C5 (amended): at the boundary clamp for chars-per-second, a NaN (or any
non-finite) input is replaced by the default `8.0`; a `0` input becomes the
clamp minimum (the `f32` literal `0.001`), not the previously held value;
and for every possible input the value handed to the simulation is finite,
strictly positive and at most `1000` — so a zero or NaN speed never reaches
the simulation and the clamp is total (no crash). -/
theorem clamp_speed_valid (v : F32) :
    clampSpeed F32.nan = F32.fin 8 ∧
    clampSpeed (F32.fin 0) = F32.fin speedClampMin ∧
    ∃ q : ℚ, clampSpeed v = F32.fin q ∧ 0 < q ∧ q ≤ 1000 := by
  have hmin : (0 : ℚ) < speedClampMin := by norm_num [speedClampMin]
  have hminle : speedClampMin ≤ 1000 := by norm_num [speedClampMin]
  refine ⟨rfl, ?_, ?_⟩
  · show clamp_f32 (F32.fin 0) (F32.fin speedClampMin) (F32.fin 1000) (F32.fin 8) =
      F32.fin speedClampMin
    unfold clamp_f32 F32.is_finite F32.clamp
    norm_num [speedClampMin]
  · cases v with
    | nan => exact ⟨8, rfl, by norm_num⟩
    | inf => exact ⟨8, rfl, by norm_num⟩
    | neginf => exact ⟨8, rfl, by norm_num⟩
    | fin q =>
      show ∃ r : ℚ, F32.clamp (F32.fin q) (F32.fin speedClampMin) (F32.fin 1000) = F32.fin r ∧
        0 < r ∧ r ≤ 1000
      unfold F32.clamp
      dsimp only
      by_cases h1 : q < speedClampMin
      · exact ⟨speedClampMin, by rw [if_pos h1], hmin, hminle⟩
      · by_cases h2 : (1000 : ℚ) < q
        · exact ⟨1000, by rw [if_neg h1, if_pos h2], by norm_num, le_refl _⟩
        · exact ⟨q, by rw [if_neg h1, if_neg h2], lt_of_lt_of_le hmin (le_of_not_lt h1),
            le_of_not_lt h2⟩

/-! ### Palette construction (`src/palette.rs`) -/

/-- `ColorMode` from `runtime.rs` (declaration not under `src/`; the four
variants are fixed by `detect_color_mode` in main.rs:81–108 and the matches
in palette.rs). -/
inductive ColorMode where
  | Mono
  | Color16
  | Color256
  | TrueColor
deriving DecidableEq

/-- `ColorScheme` from `runtime.rs` (declaration not under `src/`; the
variants are fixed by the exhaustive match in `build_palette`,
palette.rs:32–174). -/
inductive ColorScheme where
  | Green
  | Green2
  | Green3
  | Gold
  | Yellow
  | Orange
  | Red
  | Blue
  | Cyan
  | Purple
  | Neon
  | Fire
  | Ocean
  | Forest
  | Vaporwave
  | Gray
  | Rainbow
  | Snow
  | Aurora
  | FancyDiamond
  | Cosmos
  | Nebula
deriving DecidableEq

/-- `Palette` (palette.rs:7–11). -/
structure Palette where
  colors : List Color
  bg : Option Color
deriving DecidableEq

/-- `from_ansi_list` (palette.rs:13–15). -/
def from_ansi_list (list : List Nat) : List Color :=
  list.map Color.ansiValue

/-- `build_palette` (palette.rs:17–181). -/
def build_palette (scheme : ColorScheme) (mode : ColorMode)
    (default_background : Bool) : Palette :=
  let bg : Option Color :=
    if default_background then
      none
    else
      some (match mode with
        | ColorMode.Color16 => Color.black
        | ColorMode.TrueColor => Color.rgb 0 0 0
        | _ => Color.ansiValue 16)
  let colors : List Color :=
    match scheme with
    | ColorScheme.Green =>
      match mode with
      | ColorMode.Mono => [Color.white]
      | ColorMode.Color16 => [Color.darkGreen, Color.green]
      | _ => from_ansi_list [234, 22, 28, 35, 78, 84, 159]
    | ColorScheme.Green2 =>
      match mode with
      | ColorMode.Mono => [Color.white]
      | ColorMode.Color16 => [Color.darkGrey, Color.darkGreen, Color.green, Color.white]
      | _ => from_ansi_list [28, 34, 76, 84, 120, 157, 231]
    | ColorScheme.Green3 =>
      match mode with
      | ColorMode.Mono => [Color.white]
      | ColorMode.Color16 => [Color.darkGreen, Color.white]
      | _ => from_ansi_list [22, 28, 34, 70, 76, 82, 157]
    | ColorScheme.Gold =>
      match mode with
      | ColorMode.Mono => [Color.white]
      | ColorMode.Color16 => [Color.darkGrey, Color.darkYellow, Color.yellow, Color.white]
      | _ => from_ansi_list [58, 94, 172, 178, 228, 230, 231]
    | ColorScheme.Yellow =>
      match mode with
      | ColorMode.Mono => [Color.white]
      | ColorMode.Color16 => [Color.darkGrey, Color.yellow, Color.white]
      | _ => from_ansi_list [100, 142, 184, 226, 227, 229, 230]
    | ColorScheme.Orange =>
      match mode with
      | ColorMode.Mono => [Color.white]
      | ColorMode.Color16 => [Color.red, Color.grey]
      | _ => from_ansi_list [52, 94, 130, 166, 202, 208, 231]
    | ColorScheme.Red =>
      match mode with
      | ColorMode.Mono => [Color.white]
      | ColorMode.Color16 => [Color.darkRed, Color.red, Color.white]
      | _ => from_ansi_list [234, 52, 88, 124, 160, 196, 217]
    | ColorScheme.Blue =>
      match mode with
      | ColorMode.Mono => [Color.white]
      | ColorMode.Color16 => [Color.darkBlue, Color.blue, Color.white]
      | _ => from_ansi_list [234, 17, 18, 19, 20, 21, 75, 159]
    | ColorScheme.Cyan =>
      match mode with
      | ColorMode.Mono => [Color.white]
      | ColorMode.Color16 => [Color.darkCyan, Color.cyan, Color.white]
      | _ => from_ansi_list [24, 25, 31, 32, 38, 45, 159]
    | ColorScheme.Purple =>
      match mode with
      | ColorMode.Mono => [Color.white]
      | ColorMode.Color16 => [Color.magenta, Color.grey]
      | _ => from_ansi_list [60, 61, 62, 63, 69, 111, 225]
    | ColorScheme.Neon =>
      match mode with
      | ColorMode.Mono => [Color.white]
      | ColorMode.Color16 => [Color.blue, Color.magenta, Color.cyan, Color.white]
      | _ => from_ansi_list [17, 18, 19, 54, 93, 129, 201, 51, 231]
    | ColorScheme.Fire =>
      match mode with
      | ColorMode.Mono => [Color.white]
      | ColorMode.Color16 =>
        [Color.darkRed, Color.red, Color.darkYellow, Color.yellow, Color.white]
      | _ => from_ansi_list [52, 88, 124, 160, 196, 202, 208, 214, 226, 231]
    | ColorScheme.Ocean =>
      match mode with
      | ColorMode.Mono => [Color.white]
      | ColorMode.Color16 =>
        [Color.darkBlue, Color.blue, Color.darkCyan, Color.cyan, Color.white]
      | _ => from_ansi_list [17, 18, 19, 24, 30, 37, 44, 51, 87, 159, 231]
    | ColorScheme.Forest =>
      match mode with
      | ColorMode.Mono => [Color.white]
      | ColorMode.Color16 => [Color.darkGreen, Color.green, Color.yellow, Color.white]
      | _ => from_ansi_list [22, 28, 34, 40, 46, 82, 118, 154, 190, 229, 231]
    | ColorScheme.Vaporwave =>
      match mode with
      | ColorMode.Mono => [Color.white]
      | ColorMode.Color16 =>
        [Color.magenta, Color.magenta, Color.yellow, Color.cyan, Color.white]
      | _ => from_ansi_list
          [53, 54, 55, 134, 177, 219, 214, 220, 227, 229, 87, 123, 159, 195, 231]
    | ColorScheme.Gray =>
      match mode with
      | ColorMode.Mono => [Color.white]
      | ColorMode.Color16 => [Color.darkGrey, Color.grey, Color.white]
      | _ => from_ansi_list [234, 237, 240, 243, 246, 249, 251, 252, 231]
    | ColorScheme.Rainbow =>
      match mode with
      | ColorMode.Mono => [Color.white]
      | ColorMode.Color16 =>
        [Color.red, Color.blue, Color.yellow, Color.green, Color.cyan, Color.magenta]
      | _ => from_ansi_list [196, 208, 226, 46, 21, 93, 201]
    | ColorScheme.Snow =>
      match mode with
      | ColorMode.Mono => [Color.white]
      | ColorMode.Color16 => [Color.darkGrey, Color.grey, Color.white, Color.cyan]
      | _ => from_ansi_list [234, 240, 250, 252, 231, 117, 159]
    | ColorScheme.Aurora =>
      match mode with
      | ColorMode.Mono => [Color.white]
      | ColorMode.Color16 => [Color.darkGreen, Color.green, Color.cyan, Color.magenta]
      | _ => from_ansi_list [22, 28, 34, 40, 45, 51, 93, 129, 159]
    | ColorScheme.FancyDiamond =>
      match mode with
      | ColorMode.Mono => [Color.white]
      | ColorMode.Color16 => [Color.cyan, Color.white, Color.magenta]
      | _ => from_ansi_list [45, 51, 87, 123, 159, 195, 231, 225]
    | ColorScheme.Cosmos =>
      match mode with
      | ColorMode.Mono => [Color.white]
      | ColorMode.Color16 => [Color.darkBlue, Color.blue, Color.magenta, Color.white]
      | _ => from_ansi_list [17, 18, 19, 54, 55, 56, 57, 93, 129, 189, 225]
    | ColorScheme.Nebula =>
      match mode with
      | ColorMode.Mono => [Color.white]
      | ColorMode.Color16 => [Color.magenta, Color.red, Color.blue, Color.white]
      | _ => from_ansi_list [53, 54, 90, 126, 162, 198, 201, 207, 213, 219, 225]
  let bg := if default_background then none else bg
  { colors := colors, bg := bg }

/-- C9: for every color scheme, color mode and default-background flag, the
palette's color list is non-empty, and its background is `None` exactly when
the default-background flag is set. -/
theorem build_palette_nonempty_and_bg (scheme : ColorScheme) (mode : ColorMode)
    (dbg : Bool) :
    (build_palette scheme mode dbg).colors ≠ [] ∧
    ((build_palette scheme mode dbg).bg = none ↔ dbg = true) := by
  cases scheme <;> cases mode <;> cases dbg <;> exact ⟨by decide, by decide⟩

/-! ### `U16Range` parsing (`src/config.rs`) -/

/-- `U16Range` (config.rs:8–12).  The parser guarantees both fields fit in
`u16`, so they are carried as `Nat`. -/
structure U16Range where
  low : Nat
  high : Nat
deriving DecidableEq

/-- `str::split_once(',')` (Rust std): split at the first comma, or `None`
when there is none. -/
def splitOnceComma : List Char → Option (List Char × List Char)
  | [] => none
  | c :: rest =>
    if c = ',' then
      some ([], rest)
    else
      match splitOnceComma rest with
      | none => none
      | some (a, b) => some (c :: a, b)

/-- Rust `char::is_whitespace`: membership in the Unicode `White_Space`
set (25 code points). -/
def isRustWhitespace (c : Char) : Bool :=
  ([0x9, 0xA, 0xB, 0xC, 0xD, 0x20, 0x85, 0xA0, 0x1680,
    0x2000, 0x2001, 0x2002, 0x2003, 0x2004, 0x2005, 0x2006, 0x2007,
    0x2008, 0x2009, 0x200A, 0x2028, 0x2029, 0x202F, 0x205F, 0x3000] :
      List Nat).contains c.toNat

/-- `str::trim` (Rust std): drop `White_Space` characters from both ends. -/
def strTrim (l : List Char) : List Char :=
  ((l.dropWhile isRustWhitespace).reverse.dropWhile isRustWhitespace).reverse

/-- The numeric value of an ASCII digit. -/
def digitVal (c : Char) : Nat :=
  c.toNat - 48

/-- The digit loop of `u16::from_str_radix` for a non-negative sign: each
step multiplies by 10 and adds the digit with checked `u16` arithmetic
(`checked_mul` / `checked_add`, i.e. fail as soon as the accumulator would
exceed 65535), and any non-digit aborts. -/
def parseDigits : List Char → Nat → Option Nat
  | [], acc => some acc
  | c :: rest, acc =>
    if c.isDigit then
      if 10 * acc + digitVal c ≤ 65535 then
        parseDigits rest (10 * acc + digitVal c)
      else
        none
    else
      none

/-- The digit loop of `u16::from_str_radix` after a `'-'` sign on the
unsigned type: `checked_mul` then `checked_sub`, so any digit that would
drive the accumulator below zero fails (only strings of zeros succeed,
with value 0). -/
def parseNegDigits : List Char → Nat → Option Nat
  | [], acc => some acc
  | c :: rest, acc =>
    if c.isDigit then
      if 10 * acc ≤ 65535 ∧ digitVal c ≤ 10 * acc then
        parseNegDigits rest (10 * acc - digitVal c)
      else
        none
    else
      none

/-- `u16::from_str` (Rust core): reject the empty string, strip one leading
`'+'` or `'-'`, reject if nothing remains, then run the checked digit loop. -/
def parseU16 (l : List Char) : Option Nat :=
  match l with
  | [] => none
  | c :: rest =>
    if c = '+' then
      if rest = [] then none else parseDigits rest 0
    else if c = '-' then
      if rest = [] then none else parseNegDigits rest 0
    else
      parseDigits (c :: rest) 0

/-- `U16Range::from_str` (config.rs:14–34). -/
def U16Range.from_str (s : List Char) : Except String U16Range :=
  match splitOnceComma s with
  | none => Except.error "expected: NUM1,NUM2"
  | some (a, b) =>
    match parseU16 (strTrim a) with
    | none => Except.error "invalid low value"
    | some low =>
      match parseU16 (strTrim b) with
      | none => Except.error "invalid high value"
      | some high =>
        if low = 0 ∨ high = 0 ∨ high < low then
          Except.error "range must be >0 and low <= high"
        else
          Except.ok { low := low, high := high }

example : U16Range.from_str ['3', '0', '0', ',', '4', '0', '0'] =
    Except.ok { low := 300, high := 400 } := rfl
example : U16Range.from_str [' ', '1', ' ', ',', '3'] =
    Except.ok { low := 1, high := 3 } := rfl
example : (U16Range.from_str ['5', ',', '4']).isOk = false := by decide
example : (U16Range.from_str ['0', ',', '4']).isOk = false := by decide
example : (U16Range.from_str ['4']).isOk = false := by decide
example : (U16Range.from_str ['-', '0', ',', '4']).isOk = false := by decide
example : (U16Range.from_str ['6', '5', '5', '3', '6', ',', '7']).isOk = false := by decide

/-- The decimal value of a digit string (most significant first). -/
def decVal (ds : List Char) : Nat :=
  ds.foldl (fun acc c => 10 * acc + digitVal c) 0

/-- The specification-level notion of a `u16` numeral: an optional leading
`'+'` followed by one or more ASCII digits whose decimal value is `n`,
with `n` within `u16` range. -/
def IsU16Numeral (l : List Char) (n : Nat) : Prop :=
  ∃ ds, (l = ds ∨ l = '+' :: ds) ∧ ds ≠ [] ∧ (∀ c ∈ ds, c.isDigit = true) ∧
    decVal ds = n ∧ n ≤ 65535

theorem decFoldl_mono (ds : List Char) (acc : Nat) :
    acc ≤ ds.foldl (fun a c => 10 * a + digitVal c) acc := by
  induction ds generalizing acc with
  | nil => exact Nat.le_refl acc
  | cons c rest ih =>
    rw [List.foldl_cons]
    exact Nat.le_trans (by omega) (ih (10 * acc + digitVal c))

theorem parseDigits_eq_some {ds : List Char} {acc n : Nat} (hacc : acc ≤ 65535) :
    parseDigits ds acc = some n ↔
      (∀ c ∈ ds, c.isDigit = true) ∧
      n = ds.foldl (fun a c => 10 * a + digitVal c) acc ∧ n ≤ 65535 := by
  induction ds generalizing acc with
  | nil =>
    simp only [parseDigits, List.foldl_nil]
    constructor
    · intro h
      obtain rfl := Option.some_inj.mp h
      exact ⟨fun c hc => absurd hc (List.not_mem_nil c), rfl, hacc⟩
    · rintro ⟨-, rfl, -⟩
      rfl
  | cons c rest ih =>
    simp only [parseDigits, List.foldl_cons]
    by_cases hd : c.isDigit = true
    · rw [if_pos hd]
      by_cases hb : 10 * acc + digitVal c ≤ 65535
      · rw [if_pos hb, ih hb]
        constructor
        · rintro ⟨h1, h2, h3⟩
          refine ⟨fun x hx => ?_, h2, h3⟩
          rcases List.mem_cons.mp hx with rfl | hx
          · exact hd
          · exact h1 x hx
        · rintro ⟨h1, h2, h3⟩
          exact ⟨fun x hx => h1 x (List.mem_cons_of_mem c hx), h2, h3⟩
      · rw [if_neg hb]
        constructor
        · intro h
          exact absurd h (by simp)
        · rintro ⟨-, rfl, h3⟩
          exact absurd (Nat.le_trans (decFoldl_mono rest (10 * acc + digitVal c)) h3) hb
    · rw [if_neg hd]
      constructor
      · intro h
        exact absurd h (by simp)
      · rintro ⟨h1, -, -⟩
        exact absurd (h1 c (List.mem_cons_self c rest)) hd

theorem digitVal_pos_of_ne_zero {c : Char} (hd : c.isDigit = true) (hc : c ≠ '0') :
    1 ≤ digitVal c := by
  unfold Char.isDigit at hd
  simp only [Bool.and_eq_true, decide_eq_true_eq] at hd
  have h48 : 48 ≤ c.toNat := hd.1
  have hne : c.toNat ≠ 48 := by
    intro hh
    apply hc
    have := Char.ofNat_toNat c
    rw [hh] at this
    rw [← this]
  unfold digitVal
  omega

theorem parseNegDigits_zero_eq_some {ds : List Char} {n : Nat} :
    parseNegDigits ds 0 = some n ↔ (∀ c ∈ ds, c = '0') ∧ n = 0 := by
  induction ds with
  | nil =>
    simp only [parseNegDigits]
    constructor
    · intro h
      obtain rfl := Option.some_inj.mp h
      exact ⟨fun c hc => absurd hc (List.not_mem_nil c), rfl⟩
    · rintro ⟨-, rfl⟩
      rfl
  | cons c rest ih =>
    simp only [parseNegDigits]
    by_cases hc : c = '0'
    · subst hc
      rw [if_pos (by decide)]
      rw [if_pos (by constructor <;> decide)]
      have hstep : 10 * 0 - digitVal '0' = 0 := by decide
      rw [hstep, ih]
      constructor
      · rintro ⟨h1, h2⟩
        refine ⟨fun x hx => ?_, h2⟩
        rcases List.mem_cons.mp hx with rfl | hx
        · rfl
        · exact h1 x hx
      · rintro ⟨h1, h2⟩
        exact ⟨fun x hx => h1 x (List.mem_cons_of_mem _ hx), h2⟩
    · have hrhs : ¬((∀ x ∈ c :: rest, x = '0') ∧ n = 0) := by
        rintro ⟨h1, -⟩
        exact hc (h1 c (List.mem_cons_self c rest))
      by_cases hd : c.isDigit = true
      · rw [if_pos hd]
        have hcond : ¬(10 * 0 ≤ 65535 ∧ digitVal c ≤ 10 * 0) := by
          rintro ⟨-, h2⟩
          have := digitVal_pos_of_ne_zero hd hc
          omega
        rw [if_neg hcond]
        exact iff_of_false (by simp) hrhs
      · rw [if_neg hd]
        exact iff_of_false (by simp) hrhs

theorem parseU16_eq_some_pos {l : List Char} {n : Nat} (hn : 0 < n) :
    parseU16 l = some n ↔ IsU16Numeral l n := by
  cases l with
  | nil =>
    simp only [parseU16]
    constructor
    · intro h
      exact Option.noConfusion h
    · rintro ⟨ds, hds, hne, -, -, -⟩
      rcases hds with h | h
      · exact absurd h.symm hne
      · exact List.noConfusion h
  | cons c rest =>
    simp only [parseU16]
    by_cases hplus : c = '+'
    · subst hplus
      rw [if_pos rfl]
      by_cases hrest : rest = []
      · subst hrest
        rw [if_pos rfl]
        constructor
        · intro h
          exact Option.noConfusion h
        · rintro ⟨ds, hds, hne, hdig, -, -⟩
          rcases hds with h | h
          · rw [← h] at hdig
            exact absurd (hdig '+' (List.mem_cons_self _ _)) (by decide)
          · injection h with h1 h2
            exact absurd h2.symm hne
      · rw [if_neg hrest]
        rw [parseDigits_eq_some (by omega)]
        constructor
        · rintro ⟨h1, h2, h3⟩
          exact ⟨rest, Or.inr rfl, hrest, h1, h2.symm, h3⟩
        · rintro ⟨ds, hds, hne, hdig, hval, hle⟩
          rcases hds with h | h
          · rw [← h] at hdig
            exact absurd (hdig '+' (List.mem_cons_self _ _)) (by decide)
          · injection h with h1 h2
            subst h2
            exact ⟨hdig, hval.symm, hle⟩
    · by_cases hminus : c = '-'
      · subst hminus
        rw [if_neg hplus, if_pos rfl]
        by_cases hrest : rest = []
        · subst hrest
          rw [if_pos rfl]
          constructor
          · intro h
            exact Option.noConfusion h
          · rintro ⟨ds, hds, hne, hdig, -, -⟩
            rcases hds with h | h
            · rw [← h] at hdig
              exact absurd (hdig '-' (List.mem_cons_self _ _)) (by decide)
            · injection h with h1 h2
              exact absurd h1 (by decide)
        · rw [if_neg hrest, parseNegDigits_zero_eq_some]
          constructor
          · rintro ⟨-, h2⟩
            omega
          · rintro ⟨ds, hds, hne, hdig, -, -⟩
            rcases hds with h | h
            · rw [← h] at hdig
              exact absurd (hdig '-' (List.mem_cons_self _ _)) (by decide)
            · injection h with h1 h2
              exact absurd h1 (by decide)
      · rw [if_neg hplus, if_neg hminus]
        rw [parseDigits_eq_some (by omega)]
        constructor
        · rintro ⟨h1, h2, h3⟩
          exact ⟨c :: rest, Or.inl rfl, by simp, h1, h2.symm, h3⟩
        · rintro ⟨ds, hds, hne, hdig, hval, hle⟩
          rcases hds with h | h
          · rw [← h] at hdig hval
            exact ⟨hdig, hval.symm, hle⟩
          · injection h with h1 h2
            exact absurd h1 hplus

theorem splitOnceComma_eq_some {s : List Char} :
    ∀ {a b : List Char}, splitOnceComma s = some (a, b) ↔
      s = a ++ ',' :: b ∧ ',' ∉ a := by
  induction s with
  | nil =>
    intro a b
    simp only [splitOnceComma]
    constructor
    · intro h
      exact Option.noConfusion h
    · rintro ⟨h, -⟩
      exact absurd h.symm (by simp)
  | cons c rest ih =>
    intro a b
    simp only [splitOnceComma]
    by_cases hc : c = ','
    · subst hc
      rw [if_pos rfl]
      constructor
      · intro h
        have h3 := Option.some_inj.mp h
        cases h3
        exact ⟨rfl, List.not_mem_nil _⟩
      · rintro ⟨h1, h2⟩
        cases a with
        | nil =>
          rw [List.nil_append] at h1
          injection h1 with h3 h4
          rw [h4]
        | cons x a2 =>
          rw [List.cons_append] at h1
          injection h1 with hx htail
          have hmem : ',' ∈ x :: a2 := by
            rw [← hx]
            exact List.mem_cons_self _ _
          exact absurd hmem h2
    · rw [if_neg hc]
      cases hsp : splitOnceComma rest with
      | none =>
        constructor
        · intro h
          exact Option.noConfusion h
        · rintro ⟨h1, h2⟩
          cases a with
          | nil =>
            rw [List.nil_append] at h1
            injection h1 with hx htail
            exact absurd hx hc
          | cons x a2 =>
            rw [List.cons_append] at h1
            injection h1 with hx hrest
            have h2a : ',' ∉ a2 := fun hm => h2 (List.mem_cons_of_mem x hm)
            have h5 := ih.mpr ⟨hrest, h2a⟩
            rw [hsp] at h5
            exact Option.noConfusion h5
      | some p =>
        obtain ⟨a2, b2⟩ := p
        constructor
        · intro h
          have h3 := Option.some_inj.mp h
          cases h3
          obtain ⟨h4, h5⟩ := ih.mp hsp
          refine ⟨by rw [List.cons_append, ← h4], fun hm => ?_⟩
          rcases List.mem_cons.mp hm with hx | hx
          · exact hc hx.symm
          · exact h5 hx
        · rintro ⟨h1, h2⟩
          cases a with
          | nil =>
            rw [List.nil_append] at h1
            injection h1 with hx htail
            exact absurd hx hc
          | cons x a3 =>
            rw [List.cons_append] at h1
            injection h1 with hx hrest
            subst hx
            have h2a : ',' ∉ a3 := fun hm => h2 (List.mem_cons_of_mem _ hm)
            have h5 := ih.mpr ⟨hrest, h2a⟩
            rw [hsp] at h5
            have h6 := Option.some_inj.mp h5
            cases h6
            rfl

/-- C8: `U16Range::from_str` succeeds with `{low, high}` exactly when the
input splits at its first comma into two parts whose trimmed halves are
`u16` numerals of values `low` and `high` with `low > 0`, `high > 0` and
`low ≤ high`; every other input produces an error (an `Except` value is
either `ok` or `error`, and the iff rules out `ok`). -/
theorem u16range_from_str_characterization :
    (∀ (s : List Char) (low high : Nat),
      U16Range.from_str s = Except.ok ⟨low, high⟩ ↔
        ∃ a b, s = a ++ ',' :: b ∧ ',' ∉ a ∧
          IsU16Numeral (strTrim a) low ∧ IsU16Numeral (strTrim b) high ∧
          0 < low ∧ 0 < high ∧ low ≤ high) ∧
    (∀ s : List Char, (∃ r, U16Range.from_str s = Except.ok r) ∨
      (∃ e, U16Range.from_str s = Except.error e)) := by
  constructor
  · intro s low high
    unfold U16Range.from_str
    cases hsp : splitOnceComma s with
    | none =>
      constructor
      · intro h
        exact Except.noConfusion h
      · rintro ⟨a, b, hs, hna, -, -, -, -, -⟩
        have hsome := splitOnceComma_eq_some.mpr ⟨hs, hna⟩
        rw [hsp] at hsome
        exact Option.noConfusion hsome
    | some p =>
      obtain ⟨a0, b0⟩ := p
      have hab := splitOnceComma_eq_some.mp hsp
      dsimp only
      cases hlo : parseU16 (strTrim a0) with
      | none =>
        constructor
        · intro h
          exact Except.noConfusion h
        · rintro ⟨a, b, hs, hna, hnl, hnh, hl, hh, hlh⟩
          have hsome := splitOnceComma_eq_some.mpr ⟨hs, hna⟩
          rw [hsp] at hsome
          injection Option.some_inj.mp hsome with h5 h6
          subst h5
          subst h6
          have hpl := (parseU16_eq_some_pos hl).mpr hnl
          rw [hlo] at hpl
          exact Option.noConfusion hpl
      | some lo =>
        cases hhi : parseU16 (strTrim b0) with
        | none =>
          constructor
          · intro h
            exact Except.noConfusion h
          · rintro ⟨a, b, hs, hna, hnl, hnh, hl, hh, hlh⟩
            have hsome := splitOnceComma_eq_some.mpr ⟨hs, hna⟩
            rw [hsp] at hsome
            injection Option.some_inj.mp hsome with h5 h6
            subst h5
            subst h6
            have hph := (parseU16_eq_some_pos hh).mpr hnh
            rw [hhi] at hph
            exact Option.noConfusion hph
        | some hi =>
          dsimp only
          by_cases hguard : lo = 0 ∨ hi = 0 ∨ hi < lo
          · rw [if_pos hguard]
            constructor
            · intro h
              exact Except.noConfusion h
            · rintro ⟨a, b, hs, hna, hnl, hnh, hl, hh, hlh⟩
              have hsome := splitOnceComma_eq_some.mpr ⟨hs, hna⟩
              rw [hsp] at hsome
              injection Option.some_inj.mp hsome with h5 h6
              subst h5
              subst h6
              have hpl := (parseU16_eq_some_pos hl).mpr hnl
              rw [hlo] at hpl
              have h7 := Option.some_inj.mp hpl
              have hph := (parseU16_eq_some_pos hh).mpr hnh
              rw [hhi] at hph
              have h8 := Option.some_inj.mp hph
              omega
          · rw [if_neg hguard]
            push_neg at hguard
            obtain ⟨hlo0, hhi0, hlohi⟩ := hguard
            constructor
            · intro h
              injection h with h2
              injection h2 with h3 h4
              subst h3
              subst h4
              refine ⟨a0, b0, hab.1, hab.2, ?_, ?_, by omega, by omega, hlohi⟩
              · exact (parseU16_eq_some_pos (by omega)).mp hlo
              · exact (parseU16_eq_some_pos (by omega)).mp hhi
            · rintro ⟨a, b, hs, hna, hnl, hnh, hl, hh, hlh⟩
              have hsome := splitOnceComma_eq_some.mpr ⟨hs, hna⟩
              rw [hsp] at hsome
              injection Option.some_inj.mp hsome with h5 h6
              subst h5
              subst h6
              have hpl := (parseU16_eq_some_pos hl).mpr hnl
              rw [hlo] at hpl
              have h7 := Option.some_inj.mp hpl
              have hph := (parseU16_eq_some_pos hh).mpr hnh
              rw [hhi] at hph
              have h8 := Option.some_inj.mp hph
              rw [h7, h8]
  · intro s
    cases h : U16Range.from_str s with
    | ok r => exact Or.inl ⟨r, rfl⟩
    | error e => exact Or.inr ⟨e, rfl⟩

theorem u16range_from_str_characterization_witness :
    U16Range.from_str ['3', '0', '0', ',', '4', '0', '0'] =
      Except.ok { low := 300, high := 400 } :=
  (u16range_from_str_characterization.1 ['3', '0', '0', ',', '4', '0', '0'] 300 400).mpr
    ⟨['3', '0', '0'], ['4', '0', '0'], by decide, by decide,
      ⟨['3', '0', '0'], Or.inl (by decide), by decide, by decide, by decide, by decide⟩,
      ⟨['4', '0', '0'], Or.inl (by decide), by decide, by decide, by decide, by decide⟩,
      by decide, by decide, by decide⟩
